import Mathlib

/-!
  # Verification of the rjq job queue (src/lib.rs)

  A shallow embedding of the Redis-backed job queue `rjq`: the `Job`
  record and `Status` enum, the producer operations `enqueue`, `status`,
  `result`, and one iteration of the worker loop `Queue::work` — claim
  (BLPOP + GET + mark RUNNING), the timeout poll loop over the
  completion channel, and finalization (persist terminal status, panic
  on LOST when requested).

  The Redis store is modelled as an association map from string keys to
  string-typed payloads with the TTL recorded at the last write, plus an
  association map from keys to lists (for the `<queue>:uuids` list).
  External collaborators are modelled at their interface:

  * `serde_json` is an opaque codec: `toJson` embeds a `Job` into the
    payload type, `fromJson` recovers it and fails on any payload that
    is not the image of a job (a "corrupt" payload);
  * `Uuid::new_v4` is an opaque unique-string generator: the generated
    id is a parameter, and in the system-level model freshness of the
    generated id is a guard on the enqueue action;
  * the spawned processing thread and its mpsc channel are modelled by
    the function's outcome (`Except String String`) together with the
    poll index at which its completion message first becomes available
    (`arrival : Option Nat`, `none` meaning it never arrives).

  Sleeping is not modelled by real time: the poll loop returns the list
  of sleep durations (in milliseconds, as computed by the code:
  `1000 / freq` with integer division) that it performed.
-/

namespace Rjq

/-- Job status (`enum Status` in src/lib.rs). -/
inductive Status
  /-- Job is queued -/
  | QUEUED
  /-- Job is running -/
  | RUNNING
  /-- Job was lost - timeout exceeded -/
  | LOST
  /-- Job finished successfully -/
  | FINISHED
  /-- Job failed -/
  | FAILED
deriving DecidableEq, Repr

/-- Job record (`struct Job` in src/lib.rs). -/
structure Job where
  uuid : String
  status : Status
  args : List String
  result : Option String
deriving DecidableEq, Repr

/-- A string value stored in Redis: either the serialization of a job
(the only thing this program writes) or some other, corrupt string.
This is the interface-level model of `serde_json` payloads. -/
inductive Payload
  | jobPayload (j : Job)
  | corrupt (s : String)
deriving DecidableEq, Repr

/-- Model of `serde_json::to_string` on jobs (an opaque injective codec). -/
def toJson (j : Job) : Payload := Payload.jobPayload j

/-- Model of `serde_json::from_str::<Job>`: recovers the job from its
serialization and fails on corrupt payloads. -/
def fromJson : Payload → Option Job
  | Payload.jobPayload j => some j
  | Payload.corrupt _ => none

/-- Queue-level errors surfaced by the producer operations: `GET` on a
missing (never written or expired) key, and deserialization failure. -/
inductive QErr
  | NotFound
  | DecodeError
deriving DecidableEq, Repr

/-- Association-list lookup by string key. -/
def alookup {α : Type} : List (String × α) → String → Option α
  | [], _ => none
  | (k, v) :: rest, key => if k = key then some v else alookup rest key

/-- Association-list update: replace the first binding of the key, or
append a new binding. -/
def aset {α : Type} : List (String × α) → String → α → List (String × α)
  | [], key, v => [(key, v)]
  | (k, w) :: rest, key, v =>
      if k = key then (k, v) :: rest else (k, w) :: aset rest key v

/-- Association-list removal of every binding of the key. -/
def aremove {α : Type} : List (String × α) → String → List (String × α)
  | [], _ => []
  | (k, w) :: rest, key =>
      if k = key then aremove rest key else (k, w) :: aremove rest key

/-- The Redis store, at the granularity this program uses it: string
keys to string payloads with the TTL (seconds) recorded at the last
`SET EX` write, and list keys to lists of strings. -/
structure Store where
  kv : List (String × (Payload × Nat))
  lists : List (String × List String)
deriving DecidableEq, Repr

/-- The empty store. -/
def Store.empty : Store := ⟨[], []⟩

/-- Model of `SET key value EX ttl`. -/
def setEx (st : Store) (k : String) (v : Payload) (ttl : Nat) : Store :=
  { st with kv := aset st.kv k (v, ttl) }

/-- Model of `GET key`: `none` when the key is absent (never written, or
expired — expiry is modelled as removal of the binding). -/
def kvGet (st : Store) (k : String) : Option Payload :=
  (alookup st.kv k).map Prod.fst

/-- The TTL recorded at the last write of the key. -/
def kvTTL (st : Store) (k : String) : Option Nat :=
  (alookup st.kv k).map Prod.snd

/-- Model of `RPUSH key v`: append to the (possibly absent) list. -/
def rpush (st : Store) (k : String) (v : String) : Store :=
  { st with lists := aset st.lists k (((alookup st.lists k).getD []) ++ [v]) }

/-- Model of `BLPOP key wait` as used by the worker: pop the head of the
list, returning `[key, value]`, or return `[]` when nothing arrives
within the wait bound. -/
def blpop (st : Store) (k : String) : Store × List String :=
  match alookup st.lists k with
  | some (x :: xs) => ({ st with lists := aset st.lists k xs }, [k, x])
  | _ => (st, [])

/-- The key of a job record: `format!("{}:{}", self.name, uuid)`. -/
def jobKey (name uuid : String) : String := name ++ ":" ++ uuid

/-- The key of the pending-id list: `format!("{}:uuids", self.name)`. -/
def uuidsKey (name : String) : String := name ++ ":uuids"

/-- `Job::new`: a fresh record with status `QUEUED`, the given args and
no result. The generated uuid (`Uuid::new_v4`) is an opaque unique
string, passed as a parameter. -/
def Job.new (uuid : String) (args : List String) : Job :=
  { uuid := uuid, status := Status.QUEUED, args := args, result := none }

/-- `Queue::enqueue`: build a `QUEUED` record, `SET EX` it under
`<name>:<uuid>` with TTL `expire`, `RPUSH` the uuid onto
`<name>:uuids`, and return the uuid. -/
def enqueueOp (name : String) (st : Store) (uuid : String)
    (args : List String) (expire : Nat) : Store × String :=
  let job := Job.new uuid args
  let st1 := setEx st (jobKey name job.uuid) (toJson job) expire
  let st2 := rpush st1 (uuidsKey name) job.uuid
  (st2, job.uuid)

/-- `Queue::status`: `GET` the record at `<name>:<uuid>` (a missing key
is a `NotFound` error, as the nil reply cannot convert to `String`),
deserialize it (`DecodeError` on failure), and return its status. -/
def statusOp (name : String) (st : Store) (uuid : String) : Except QErr Status :=
  match kvGet st (jobKey name uuid) with
  | none => Except.error QErr.NotFound
  | some p =>
    match fromJson p with
    | none => Except.error QErr.DecodeError
    | some job => Except.ok job.status

/-- `Queue::result`: same read path as `Queue::status` (GET then
deserialize, with the same two failure modes), returning the record's
optional result. -/
def resultOp (name : String) (st : Store) (uuid : String) :
    Except QErr (Option String) :=
  match kvGet st (jobKey name uuid) with
  | none => Except.error QErr.NotFound
  | some p =>
    match fromJson p with
    | none => Except.error QErr.DecodeError
    | some job => Except.ok job.result

/-- `Queue::drop`: delete the pending-id list key only. -/
def dropOp (name : String) (st : Store) : Store :=
  { st with lists := aremove st.lists (uuidsKey name) }

/-- The pair the spawned thread sends on the channel:
`(FINISHED, Some o)` when the processing function returned `Ok(o)`,
`(FAILED, None)` when it returned an error. -/
def outcomeOf : Except String String → Status × Option String
  | Except.ok o => (Status.FINISHED, some o)
  | Except.error _ => (Status.FAILED, none)

/-- Model of `rx.try_recv()` at the i-th poll check: the completion
message is available from check index `k` on when `arrival = some k`,
and never when `arrival = none`. -/
def recvAt (arrival : Option Nat) (funRes : Except String String) (i : Nat) :
    Option (Status × Option String) :=
  match arrival with
  | some k => if k ≤ i then some (outcomeOf funRes) else none
  | none => none

/-- The poll loop `for _ in 0..(timeout * freq)` of `Queue::work`:
on each iteration, `try_recv` (defaulting to `(RUNNING, None)`) is
written into the job's status and result; the loop breaks as soon as
the status is not `RUNNING`, and otherwise sleeps `1000 / freq`
milliseconds. Recursion is on the remaining iteration count, with `i`
the index of the current check. Returns the job after the loop, the
number of checks performed, and the list of sleep durations performed
(milliseconds). -/
def pollLoop (recv : Nat → Option (Status × Option String)) (freq : Nat) :
    Nat → Nat → Job → Job × Nat × List Nat
  | 0, _, job => (job, 0, [])
  | n + 1, i, job =>
    let sr := (recv i).getD (Status.RUNNING, none)
    let job1 : Job := { job with status := sr.1, result := sr.2 }
    if job1.status = Status.RUNNING then
      let rec1 := pollLoop recv freq n (i + 1) job1
      (rec1.1, rec1.2.1 + 1, (1000 / freq) :: rec1.2.2)
    else
      (job1, 1, [])

/-- Lines 240-251 of `Queue::work`: run the poll loop for
`timeout * freq` iterations starting from check index 0, then mark the
job `LOST` if it is still `RUNNING`. -/
def runPoll (timeout freq : Nat) (recv : Nat → Option (Status × Option String))
    (job : Job) : Job × Nat × List Nat :=
  let r := pollLoop recv freq (timeout * freq) 0 job
  (if r.1.status = Status.RUNNING then { r.1 with status := Status.LOST } else r.1,
   r.2.1, r.2.2)

/-- Outcome of the claim phase of one `work` iteration. -/
inductive ClaimRes
  /-- `BLPOP` returned fewer than two items (wait bound elapsed). -/
  | noJob
  /-- The popped id's record is missing (`GET` failed): silently skipped. -/
  | skipped (uuid : String)
  /-- The popped id's record does not deserialize: the `?` on
  `serde_json::from_str` propagates the error out of `work`. -/
  | decodeFail (uuid : String)
  /-- The record was loaded, marked `RUNNING` and persisted. -/
  | claimed (uuid : String) (job : Job)
deriving Repr

/-- Lines 203-226 of `Queue::work`: `BLPOP` one id from
`<name>:uuids`; if the reply has fewer than two items there is no job;
`GET` the record (a missing key is a soft skip); deserialize it; set
its status to `RUNNING` and persist it with TTL `timeout + expire`. -/
def workClaim (name : String) (st : Store) (timeout expire : Nat) :
    Store × ClaimRes :=
  match blpop st (uuidsKey name) with
  | (st1, uuids) =>
    if h : uuids.length < 2 then (st1, ClaimRes.noJob)
    else
      let uuid := uuids.get ⟨1, by omega⟩
      let key := jobKey name uuid
      match kvGet st1 key with
      | none => (st1, ClaimRes.skipped uuid)
      | some p =>
        match fromJson p with
        | none => (st1, ClaimRes.decodeFail uuid)
        | some job =>
          let job1 : Job := { job with status := Status.RUNNING }
          (setEx st1 key (toJson job1) (timeout + expire), ClaimRes.claimed uuid job1)

/-- Lines 252-256 of `Queue::work`: persist the final record with TTL
`expire`, then panic when `fall` is set and the final status is `LOST`.
The returned flag records whether the panic fires; the store already
holds the final write when it does. -/
def workFinalize (name : String) (st : Store) (uuid : String) (final : Job)
    (expire : Nat) (fall : Bool) : Store × Bool :=
  let st1 := setEx st (jobKey name uuid) (toJson final) expire
  (st1, fall && decide (final.status = Status.LOST))

/-- Observable outcome of one `work` iteration. -/
inductive WorkOutcome
  /-- No id arrived within the wait bound. -/
  | noJob
  /-- The popped id's record was missing; the id is dropped. -/
  | skipped (uuid : String)
  /-- A job was claimed, supervised and finalized: its final record,
  the number of poll checks, the sleep durations performed (ms), and
  whether the worker panicked (`fall` and final status `LOST`). -/
  | done (uuid : String) (final : Job) (checks : Nat) (sleepsMs : List Nat)
      (panicked : Bool)
deriving Repr

/-- One iteration of the `loop` in `Queue::work` (lines 202-261):
claim, supervise with the poll loop, finalize. The processing function
is modelled by its outcome `funRes` and the poll index `arrival` at
which its completion message becomes available. A record that fails to
deserialize propagates `DecodeError` out of `work` (the `?` on line
223); a processing failure does not — it becomes job status `FAILED`. -/
def workIteration (name : String) (st : Store) (timeout freq expire : Nat)
    (fall : Bool) (funRes : Except String String) (arrival : Option Nat) :
    Except QErr (Store × WorkOutcome) :=
  match workClaim name st timeout expire with
  | (st1, ClaimRes.noJob) => Except.ok (st1, WorkOutcome.noJob)
  | (st1, ClaimRes.skipped u) => Except.ok (st1, WorkOutcome.skipped u)
  | (_, ClaimRes.decodeFail _) => Except.error QErr.DecodeError
  | (st1, ClaimRes.claimed u job) =>
    let pr := runPoll timeout freq (recvAt arrival funRes) job
    let fin := workFinalize name st1 u pr.1 expire fall
    Except.ok (fin.1, WorkOutcome.done u pr.1 pr.2.1 pr.2.2 fin.2)

/-! ## System-level model

For the lifecycle claim the operations above are assembled into a
transition system: the state is the store together with the claims held
by workers between the `RUNNING` write and the final write (the job
each worker loaded at claim time). Actions are the program's operations
on records — enqueue, a worker's claim phase, a worker's finalization —
plus store-side expiry of a key. -/

/-- System state: the store and the in-flight worker claims (popped
uuid and the job as persisted at claim time, i.e. `RUNNING`). -/
structure SysState where
  store : Store
  workers : List (String × Job)
deriving DecidableEq, Repr

/-- The initial system state: empty store, no in-flight claims. -/
def initState : SysState := ⟨Store.empty, []⟩

/-- The pending-id list of the queue, as held by the store. -/
def getUuids (name : String) (st : Store) : List String :=
  (alookup st.lists (uuidsKey name)).getD []

/-- The decoded job record of an id, when its key is present and its
payload deserializes. -/
def getJob (name : String) (st : Store) (uuid : String) : Option Job :=
  (kvGet st (jobKey name uuid)).bind fromJson

/-- The job a worker holds in flight for an id, if any. -/
def findWorker : List (String × Job) → String → Option Job
  | [], _ => none
  | (v, j) :: rest, u => if v = u then some j else findWorker rest u

/-- Remove the first in-flight claim of an id. -/
def removeWorker : List (String × Job) → String → List (String × Job)
  | [], _ => []
  | (v, j) :: rest, u => if v = u then rest else (v, j) :: removeWorker rest u

/-- Actions of the program (and its store) on job records. -/
inductive Act
  /-- A producer enqueues: the opaque generator supplies `uuid`. -/
  | enq (uuid : String) (args : List String) (expire : Nat)
  /-- A worker runs the claim phase of one `work` iteration. -/
  | claim (timeout expire : Nat)
  /-- The worker holding `uuid` in flight runs the poll loop and the
  finalization write, with the processing function modelled as in
  `workIteration`. -/
  | fin (uuid : String) (timeout freq expire : Nat) (fall : Bool)
      (funRes : Except String String) (arrival : Option Nat)
  /-- The store expires (drops) a string key. -/
  | expireKey (k : String)

/-- Whether an action is a worker claim. -/
def Act.isClaim : Act → Bool
  | Act.claim _ _ => true
  | _ => false

/-- One step of the system. `none` when the action does not apply:
an enqueue whose generated id is not fresh (ruled out by the opaque
unique-string generator), or a finalization by a worker holding
nothing for that id. -/
def applyAct (name : String) (s : SysState) : Act → Option SysState
  | Act.enq u args exp =>
    if u ∈ getUuids name s.store ∨ (alookup s.store.kv (jobKey name u)).isSome
        ∨ (findWorker s.workers u).isSome then
      none
    else
      some { s with store := (enqueueOp name s.store u args exp).1 }
  | Act.claim t e =>
    match workClaim name s.store t e with
    | (st1, ClaimRes.noJob) => some { s with store := st1 }
    | (st1, ClaimRes.skipped _) => some { s with store := st1 }
    | (st1, ClaimRes.decodeFail _) => some { s with store := st1 }
    | (st1, ClaimRes.claimed u job) =>
      some { store := st1, workers := s.workers ++ [(u, job)] }
  | Act.fin u t f e fall funRes arrival =>
    match findWorker s.workers u with
    | none => none
    | some job =>
      let pr := runPoll t f (recvAt arrival funRes) job
      let fin := workFinalize name s.store u pr.1 e fall
      some { store := fin.1, workers := removeWorker s.workers u }
  | Act.expireKey k =>
    some { s with store := { s.store with kv := aremove s.store.kv k } }

/-- Run a list of actions from a state. -/
def runActs (name : String) : List Act → SysState → Option SysState
  | [], s => some s
  | a :: rest, s =>
    match applyAct name s a with
    | none => none
    | some s1 => runActs name rest s1

/-- A terminal status. -/
def Status.isTerminal : Status → Bool
  | Status.FINISHED => true
  | Status.FAILED => true
  | Status.LOST => true
  | _ => false

/-- The system invariant: pending ids hold `QUEUED` records (when the
record is still present and decodes), in-flight ids hold `RUNNING`
records (likewise), the job a worker holds in flight is itself
`RUNNING`, in-flight ids are no longer pending, and both the pending
list and the in-flight ids are duplicate-free. -/
def Inv (name : String) (s : SysState) : Prop :=
  (∀ u ∈ getUuids name s.store, ∀ j, getJob name s.store u = some j →
    j.status = Status.QUEUED)
  ∧ (∀ p ∈ s.workers, ∀ j, getJob name s.store p.1 = some j →
    j.status = Status.RUNNING)
  ∧ (∀ p ∈ s.workers, (p.2 : Job).status = Status.RUNNING)
  ∧ (∀ p ∈ s.workers, p.1 ∉ getUuids name s.store)
  ∧ (getUuids name s.store).Nodup
  ∧ (s.workers.map Prod.fst).Nodup

/-! ## Association-list and bookkeeping lemmas -/

theorem alookup_aset_self {α : Type} (l : List (String × α)) (k : String) (v : α) :
    alookup (aset l k v) k = some v := by
  induction l with
  | nil => simp [aset, alookup]
  | cons hd tl ih =>
    obtain ⟨k0, v0⟩ := hd
    by_cases h : k0 = k <;> simp [aset, alookup, h, ih]

theorem alookup_aset_ne {α : Type} (l : List (String × α)) (k k' : String) (v : α)
    (h : k' ≠ k) : alookup (aset l k v) k' = alookup l k' := by
  have h' : ¬ k = k' := fun hh => h hh.symm
  induction l with
  | nil => simp [aset, alookup, h']
  | cons hd tl ih =>
    obtain ⟨k0, v0⟩ := hd
    by_cases h0 : k0 = k
    · subst h0
      simp [aset, alookup, h']
    · simp [aset, alookup, h0, ih]

theorem alookup_aremove {α : Type} (l : List (String × α)) (k k' : String) :
    alookup (aremove l k) k' = if k' = k then none else alookup l k' := by
  induction l with
  | nil => simp [aremove, alookup]
  | cons hd tl ih =>
    obtain ⟨k0, v0⟩ := hd
    by_cases h0 : k0 = k
    · subst h0
      have he : aremove ((k0, v0) :: tl) k0 = aremove tl k0 := by
        simp [aremove]
      rw [he, ih]
      by_cases h1 : k' = k0
      · simp [h1]
      · have h1' : ¬ k0 = k' := fun hh => h1 hh.symm
        simp [alookup, h1, h1']
    · have he : aremove ((k0, v0) :: tl) k = (k0, v0) :: aremove tl k := by
        simp [aremove, h0]
      rw [he]
      by_cases h1 : k0 = k'
      · have h2 : ¬ k' = k := h1 ▸ h0
        simp [alookup, h1, h2]
      · simp [alookup, h1, ih]

theorem findWorker_some_mem {ws : List (String × Job)} {u : String} {j : Job}
    (h : findWorker ws u = some j) : (u, j) ∈ ws := by
  induction ws with
  | nil => simp [findWorker] at h
  | cons hd tl ih =>
    obtain ⟨v, j0⟩ := hd
    by_cases hv : v = u
    · subst hv
      rw [findWorker, if_pos rfl] at h
      rw [Option.some_inj] at h
      subst h
      exact List.mem_cons_self _ _
    · rw [findWorker, if_neg hv] at h
      exact List.mem_cons_of_mem _ (ih h)

theorem mem_removeWorker {ws : List (String × Job)} {u : String}
    {p : String × Job} (h : p ∈ removeWorker ws u) : p ∈ ws := by
  induction ws with
  | nil => simp [removeWorker] at h
  | cons hd tl ih =>
    obtain ⟨v, j0⟩ := hd
    by_cases hv : v = u
    · rw [removeWorker, if_pos hv] at h
      exact List.mem_cons_of_mem _ h
    · rw [removeWorker, if_neg hv] at h
      rcases List.mem_cons.mp h with h | h
      · exact h ▸ List.mem_cons_self _ _
      · exact List.mem_cons_of_mem _ (ih h)

theorem map_fst_removeWorker_sublist (ws : List (String × Job)) (u : String) :
    ((removeWorker ws u).map Prod.fst).Sublist (ws.map Prod.fst) := by
  induction ws with
  | nil => simp [removeWorker]
  | cons hd tl ih =>
    obtain ⟨v, j0⟩ := hd
    by_cases hv : v = u
    · rw [removeWorker, if_pos hv, List.map_cons]
      exact List.Sublist.cons _ (List.Sublist.refl _)
    · rw [removeWorker, if_neg hv, List.map_cons, List.map_cons]
      exact List.Sublist.cons₂ _ ih

theorem mem_removeWorker_fst_ne {ws : List (String × Job)} {u : String}
    {p : String × Job} (hnd : (ws.map Prod.fst).Nodup)
    (h : p ∈ removeWorker ws u) : p.1 ≠ u := by
  induction ws with
  | nil => simp [removeWorker] at h
  | cons hd tl ih =>
    obtain ⟨v, j0⟩ := hd
    rw [List.map_cons, List.nodup_cons] at hnd
    obtain ⟨hv0, hnd'⟩ := hnd
    by_cases hv : v = u
    · rw [removeWorker, if_pos hv] at h
      intro hpu
      have hm : p.1 ∈ tl.map Prod.fst := List.mem_map_of_mem Prod.fst h
      rw [hpu, ← hv] at hm
      exact hv0 hm
    · rw [removeWorker, if_neg hv] at h
      rcases List.mem_cons.mp h with h | h
      · rw [h]
        exact hv
      · exact ih hnd' h

theorem jobKey_inj (name : String) {u v : String} (h : jobKey name u = jobKey name v) :
    u = v := by
  rw [jobKey, jobKey] at h
  have hd : (name ++ ":" ++ u).data = (name ++ ":" ++ v).data := by rw [h]
  have h1 : (name ++ ":").data ++ u.data = (name ++ ":").data ++ v.data := by
    simpa [String.data_append] using hd
  have h2 : u.data = v.data := List.append_cancel_left h1
  cases u
  cases v
  simp at h2
  rw [h2]

/-! ## Poll loop characterization -/

theorem outcomeOf_fst_ne_running (r : Except String String) :
    (outcomeOf r).1 ≠ Status.RUNNING := by
  cases r <;> simp [outcomeOf]

theorem pollLoop_zero (recv : Nat → Option (Status × Option String))
    (freq i : Nat) (job : Job) : pollLoop recv freq 0 i job = (job, 0, []) := rfl

theorem pollLoop_succ (recv : Nat → Option (Status × Option String))
    (freq n i : Nat) (job : Job) :
    pollLoop recv freq (n + 1) i job =
      (let sr := (recv i).getD (Status.RUNNING, none)
       let job1 : Job := { job with status := sr.1, result := sr.2 }
       if job1.status = Status.RUNNING then
         let rec1 := pollLoop recv freq n (i + 1) job1
         (rec1.1, rec1.2.1 + 1, (1000 / freq) :: rec1.2.2)
       else (job1, 1, [])) := rfl

theorem pollLoop_no_signal (recv : Nat → Option (Status × Option String))
    (freq : Nat) :
    ∀ (n i0 : Nat) (job : Job),
      (∀ j, i0 ≤ j → j < i0 + (n + 1) → recv j = none) →
      pollLoop recv freq (n + 1) i0 job =
        ({ job with status := Status.RUNNING, result := none }, n + 1,
         List.replicate (n + 1) (1000 / freq)) := by
  intro n
  induction n with
  | zero =>
    intro i0 job h
    have h0 : recv i0 = none := h i0 (Nat.le_refl _) (by omega)
    rw [pollLoop_succ, h0]
    simp [pollLoop_zero]
  | succ m ih =>
    intro i0 job h
    have h0 : recv i0 = none := h i0 (Nat.le_refl _) (by omega)
    have hrec := ih (i0 + 1) { job with status := Status.RUNNING, result := none }
      (fun j hj1 hj2 => h j (by omega) (by omega))
    rw [pollLoop_succ, h0]
    simp only [Option.getD_none, if_true]
    rw [hrec]
    simp [List.replicate_succ]

theorem pollLoop_signal_at (funRes : Except String String) (freq : Nat) :
    ∀ (k n i0 : Nat) (job : Job), k < n →
      pollLoop (recvAt (some (i0 + k)) funRes) freq n i0 job =
        ({ job with status := (outcomeOf funRes).1, result := (outcomeOf funRes).2 },
         k + 1, List.replicate k (1000 / freq)) := by
  intro k
  induction k with
  | zero =>
    intro n i0 job hk
    obtain ⟨m, rfl⟩ : ∃ m, n = m + 1 := ⟨n - 1, by omega⟩
    have h0 : recvAt (some (i0 + 0)) funRes i0 = some (outcomeOf funRes) := by
      simp [recvAt]
    rw [pollLoop_succ, h0]
    simp [outcomeOf_fst_ne_running funRes]
  | succ m ih =>
    intro n i0 job hk
    obtain ⟨n1, rfl⟩ : ∃ n1, n = n1 + 1 := ⟨n - 1, by omega⟩
    have harr : i0 + (m + 1) = (i0 + 1) + m := by omega
    have h0 : recvAt (some ((i0 + 1) + m)) funRes i0 = none := by
      simp [recvAt]
      omega
    have hrec := ih n1 (i0 + 1) { job with status := Status.RUNNING, result := none }
      (by omega)
    rw [harr, pollLoop_succ, h0]
    simp only [Option.getD_none, if_true]
    rw [hrec]
    simp [List.replicate_succ]

theorem runPoll_no_signal (timeout freq : Nat)
    (recv : Nat → Option (Status × Option String)) (job : Job)
    (hjob : job.status = Status.RUNNING)
    (h : ∀ j, j < timeout * freq → recv j = none) :
    runPoll timeout freq recv job =
      (if timeout * freq = 0 then { job with status := Status.LOST }
       else { job with status := Status.LOST, result := none },
       timeout * freq, List.replicate (timeout * freq) (1000 / freq)) := by
  rcases Nat.eq_zero_or_pos (timeout * freq) with hz | hp
  · rw [hz]
    simp [runPoll, hz, pollLoop, hjob]
  · obtain ⟨n, hn⟩ : ∃ n, timeout * freq = n + 1 := ⟨timeout * freq - 1, by omega⟩
    rw [hn]
    have hps := pollLoop_no_signal recv freq n 0 job
      (fun j hj1 hj2 => h j (by omega))
    simp [runPoll, hn, hps]

theorem runPoll_signal_at (timeout freq : Nat) (funRes : Except String String)
    (k : Nat) (job : Job) (hk : k < timeout * freq) :
    runPoll timeout freq (recvAt (some k) funRes) job =
      ({ job with status := (outcomeOf funRes).1, result := (outcomeOf funRes).2 },
       k + 1, List.replicate k (1000 / freq)) := by
  have hps := pollLoop_signal_at funRes freq k (timeout * freq) 0 job hk
  rw [Nat.zero_add] at hps
  simp [runPoll, hps, outcomeOf_fst_ne_running funRes]

/-! ## Claim phase characterization -/

theorem workClaim_claimed (name : String) (st : Store) (timeout expire : Nat)
    (uuid : String) (rest : List String) (job : Job) (ttl0 : Nat)
    (hlist : alookup st.lists (uuidsKey name) = some (uuid :: rest))
    (hrec : alookup st.kv (jobKey name uuid) = some (Payload.jobPayload job, ttl0)) :
    workClaim name st timeout expire =
      (setEx { st with lists := aset st.lists (uuidsKey name) rest }
        (jobKey name uuid) (toJson { job with status := Status.RUNNING })
        (timeout + expire),
       ClaimRes.claimed uuid { job with status := Status.RUNNING }) := by
  simp [workClaim, blpop, hlist, kvGet, hrec, fromJson, toJson]

theorem kvGet_setEx_self (st : Store) (k : String) (v : Payload) (ttl : Nat) :
    kvGet (setEx st k v ttl) k = some v := by
  simp [kvGet, setEx, alookup_aset_self]

theorem kvTTL_setEx_self (st : Store) (k : String) (v : Payload) (ttl : Nat) :
    kvTTL (setEx st k v ttl) k = some ttl := by
  simp [kvTTL, setEx, alookup_aset_self]

/-! ## The claims -/

/-- C1: a job claimed by one `work` iteration whose processing function
returns `Ok r`, with the completion message available at poll check
`k < timeout * freq`, is recorded `FINISHED` with result `r`; the loop
performs exactly `k + 1` checks (stopping immediately, not waiting out
the budget) and the record is persisted, so `status` then returns
`FINISHED` and `result` returns `r`. -/
theorem work_success_finishes (name : String) (st : Store)
    (timeout freq expire : Nat) (fall : Bool) (uuid : String)
    (rest : List String) (job : Job) (ttl0 : Nat) (r : String) (k : Nat)
    (hlist : alookup st.lists (uuidsKey name) = some (uuid :: rest))
    (hrec : alookup st.kv (jobKey name uuid) = some (Payload.jobPayload job, ttl0))
    (hk : k < timeout * freq) :
    ∃ st2, workIteration name st timeout freq expire fall (Except.ok r) (some k) =
        Except.ok (st2, WorkOutcome.done uuid
          { job with status := Status.FINISHED, result := some r } (k + 1)
          (List.replicate k (1000 / freq)) false)
      ∧ statusOp name st2 uuid = Except.ok Status.FINISHED
      ∧ resultOp name st2 uuid = Except.ok (some r) := by
  have hclaim := workClaim_claimed name st timeout expire uuid rest job ttl0 hlist hrec
  have hpoll := runPoll_signal_at timeout freq (Except.ok r) k
    { job with status := Status.RUNNING } hk
  refine ⟨setEx (setEx { st with lists := aset st.lists (uuidsKey name) rest }
      (jobKey name uuid) (toJson { job with status := Status.RUNNING })
      (timeout + expire))
    (jobKey name uuid)
    (toJson { job with status := Status.FINISHED, result := some r }) expire,
    ?_, ?_, ?_⟩
  · simp [workIteration, hclaim, hpoll, outcomeOf, workFinalize]
  · simp [workIteration, hclaim, hpoll, outcomeOf, workFinalize, statusOp,
      kvGet_setEx_self, toJson, fromJson]
  · simp [workIteration, hclaim, hpoll, outcomeOf, workFinalize, resultOp,
      kvGet_setEx_self, toJson, fromJson]

/-- Witness for C1 at a concrete queue state. -/
theorem work_success_finishes_witness :
    (alookup (Store.mk [("q:u", (Payload.jobPayload (Job.new "u" ["a"]), 30))]
        [("q:uuids", ["u"])]).lists (uuidsKey "q") = some ("u" :: []))
    ∧ (alookup (Store.mk [("q:u", (Payload.jobPayload (Job.new "u" ["a"]), 30))]
        [("q:uuids", ["u"])]).kv (jobKey "q" "u") =
        some (Payload.jobPayload (Job.new "u" ["a"]), 30))
    ∧ (0 : Nat) < 1 * 2
    ∧ ∃ st2, workIteration "q"
        (Store.mk [("q:u", (Payload.jobPayload (Job.new "u" ["a"]), 30))]
          [("q:uuids", ["u"])]) 1 2 7 false (Except.ok "r") (some 0) =
        Except.ok (st2, WorkOutcome.done "u"
          { Job.new "u" ["a"] with status := Status.FINISHED, result := some "r" }
          (0 + 1) (List.replicate 0 (1000 / 2)) false)
      ∧ statusOp "q" st2 "u" = Except.ok Status.FINISHED
      ∧ resultOp "q" st2 "u" = Except.ok (some "r") :=
  ⟨by decide, by decide, by decide,
    work_success_finishes "q" _ 1 2 7 false "u" [] (Job.new "u" ["a"]) 30 "r" 0
      (by decide) (by decide) (by decide)⟩

/-- C2: a job claimed by `work` whose completion signal has not arrived
at any of the `timeout * freq` poll checks is marked `LOST` and the
record is persisted, so `status` afterwards returns `LOST`. (A
processing function whose runtime exceeds `timeout` is the special case
where the message arrives after every check.) -/
theorem work_timeout_marks_lost (name : String) (st : Store)
    (timeout freq expire : Nat) (fall : Bool) (uuid : String)
    (rest : List String) (job : Job) (ttl0 : Nat)
    (funRes : Except String String) (arrival : Option Nat)
    (hlist : alookup st.lists (uuidsKey name) = some (uuid :: rest))
    (hrec : alookup st.kv (jobKey name uuid) = some (Payload.jobPayload job, ttl0))
    (hno : ∀ i, i < timeout * freq → recvAt arrival funRes i = none) :
    ∃ st2 final,
      workIteration name st timeout freq expire fall funRes arrival =
        Except.ok (st2, WorkOutcome.done uuid final (timeout * freq)
          (List.replicate (timeout * freq) (1000 / freq)) fall)
      ∧ final.status = Status.LOST
      ∧ statusOp name st2 uuid = Except.ok Status.LOST := by
  have hclaim := workClaim_claimed name st timeout expire uuid rest job ttl0 hlist hrec
  have hpoll := runPoll_no_signal timeout freq (recvAt arrival funRes)
    { job with status := Status.RUNNING } rfl hno
  refine ⟨setEx (setEx { st with lists := aset st.lists (uuidsKey name) rest }
      (jobKey name uuid) (toJson { job with status := Status.RUNNING })
      (timeout + expire))
    (jobKey name uuid)
    (toJson (if timeout * freq = 0 then { job with status := Status.LOST }
      else { job with status := Status.LOST, result := none })) expire,
    (if timeout * freq = 0 then { job with status := Status.LOST }
      else { job with status := Status.LOST, result := none }),
    ?_, ?_, ?_⟩
  · rcases Nat.eq_zero_or_pos (timeout * freq) with hz | hp
    · simp [workIteration, hclaim, hpoll, workFinalize, hz]
    · have hz : ¬ timeout * freq = 0 := by omega
      simp [workIteration, hclaim, hpoll, workFinalize, hz]
  · rcases Nat.eq_zero_or_pos (timeout * freq) with hz | hp
    · simp [hz]
    · have hz : ¬ timeout * freq = 0 := by omega
      simp [hz]
  · rcases Nat.eq_zero_or_pos (timeout * freq) with hz | hp
    · simp [statusOp, kvGet_setEx_self, toJson, fromJson, hz]
    · have hz : ¬ timeout * freq = 0 := by omega
      simp [statusOp, kvGet_setEx_self, toJson, fromJson, hz]

/-- Witness for C2 at a concrete queue state (no signal ever arrives). -/
theorem work_timeout_marks_lost_witness :
    (alookup (Store.mk [("q:u", (Payload.jobPayload (Job.new "u" []), 30))]
        [("q:uuids", ["u"])]).lists (uuidsKey "q") = some ("u" :: []))
    ∧ (alookup (Store.mk [("q:u", (Payload.jobPayload (Job.new "u" []), 30))]
        [("q:uuids", ["u"])]).kv (jobKey "q" "u") =
        some (Payload.jobPayload (Job.new "u" []), 30))
    ∧ (∀ i, i < 1 * 2 → recvAt none (Except.ok "r") i = none)
    ∧ ∃ st2 final,
        workIteration "q"
          (Store.mk [("q:u", (Payload.jobPayload (Job.new "u" []), 30))]
            [("q:uuids", ["u"])]) 1 2 7 false (Except.ok "r") none =
          Except.ok (st2, WorkOutcome.done "u" final (1 * 2)
            (List.replicate (1 * 2) (1000 / 2)) false)
        ∧ final.status = Status.LOST
        ∧ statusOp "q" st2 "u" = Except.ok Status.LOST :=
  ⟨by decide, by decide, fun _ _ => rfl,
    work_timeout_marks_lost "q" _ 1 2 7 false "u" [] (Job.new "u" []) 30
      (Except.ok "r") none (by decide) (by decide) (fun _ _ => rfl)⟩

/-- C3: a job claimed by `work` whose processing function returns an
error (signal at check `k < timeout * freq`) is persisted with status
`FAILED` and an absent result, and the `work` iteration itself still
returns success (`Except.ok`), not a queue-level error. -/
theorem work_failure_marks_failed (name : String) (st : Store)
    (timeout freq expire : Nat) (fall : Bool) (uuid : String)
    (rest : List String) (job : Job) (ttl0 : Nat) (e : String) (k : Nat)
    (hlist : alookup st.lists (uuidsKey name) = some (uuid :: rest))
    (hrec : alookup st.kv (jobKey name uuid) = some (Payload.jobPayload job, ttl0))
    (hk : k < timeout * freq) :
    ∃ st2, workIteration name st timeout freq expire fall (Except.error e) (some k) =
        Except.ok (st2, WorkOutcome.done uuid
          { job with status := Status.FAILED, result := none } (k + 1)
          (List.replicate k (1000 / freq)) false)
      ∧ statusOp name st2 uuid = Except.ok Status.FAILED
      ∧ resultOp name st2 uuid = Except.ok none := by
  have hclaim := workClaim_claimed name st timeout expire uuid rest job ttl0 hlist hrec
  have hpoll := runPoll_signal_at timeout freq (Except.error e) k
    { job with status := Status.RUNNING } hk
  refine ⟨setEx (setEx { st with lists := aset st.lists (uuidsKey name) rest }
      (jobKey name uuid) (toJson { job with status := Status.RUNNING })
      (timeout + expire))
    (jobKey name uuid)
    (toJson { job with status := Status.FAILED, result := none }) expire,
    ?_, ?_, ?_⟩
  · simp [workIteration, hclaim, hpoll, outcomeOf, workFinalize]
  · simp [statusOp, kvGet_setEx_self, toJson, fromJson]
  · simp [resultOp, kvGet_setEx_self, toJson, fromJson]

/-- Witness for C3 at a concrete queue state. -/
theorem work_failure_marks_failed_witness :
    (alookup (Store.mk [("q:u", (Payload.jobPayload (Job.new "u" []), 30))]
        [("q:uuids", ["u"])]).lists (uuidsKey "q") = some ("u" :: []))
    ∧ (alookup (Store.mk [("q:u", (Payload.jobPayload (Job.new "u" []), 30))]
        [("q:uuids", ["u"])]).kv (jobKey "q" "u") =
        some (Payload.jobPayload (Job.new "u" []), 30))
    ∧ (0 : Nat) < 1 * 2
    ∧ ∃ st2, workIteration "q"
        (Store.mk [("q:u", (Payload.jobPayload (Job.new "u" []), 30))]
          [("q:uuids", ["u"])]) 1 2 7 false (Except.error "boom") (some 0) =
        Except.ok (st2, WorkOutcome.done "u"
          { Job.new "u" [] with status := Status.FAILED, result := none }
          (0 + 1) (List.replicate 0 (1000 / 2)) false)
      ∧ statusOp "q" st2 "u" = Except.ok Status.FAILED
      ∧ resultOp "q" st2 "u" = Except.ok none :=
  ⟨by decide, by decide, by decide,
    work_failure_marks_failed "q" _ 1 2 7 false "u" [] (Job.new "u" []) 30
      "boom" 0 (by decide) (by decide) (by decide)⟩

/-- C4: `enqueue(args, expire)` (with the opaque generator supplying a
fresh id) writes a record with status `QUEUED`, the given args and no
result under `<queue>:<id>` with TTL `expire`, appends the id to
`<queue>:uuids`, and returns the id; a `status` check before any worker
runs returns `QUEUED`. -/
theorem enqueue_writes_queued (name : String) (st : Store) (uuid : String)
    (args : List String) (expire : Nat) :
    (enqueueOp name st uuid args expire).2 = uuid
    ∧ alookup (enqueueOp name st uuid args expire).1.kv (jobKey name uuid) =
        some (Payload.jobPayload (Job.new uuid args), expire)
    ∧ (Job.new uuid args).status = Status.QUEUED
    ∧ (Job.new uuid args).args = args
    ∧ (Job.new uuid args).result = none
    ∧ getUuids name (enqueueOp name st uuid args expire).1 =
        getUuids name st ++ [uuid]
    ∧ statusOp name (enqueueOp name st uuid args expire).1 uuid =
        Except.ok Status.QUEUED := by
  refine ⟨rfl, ?_, rfl, rfl, rfl, ?_, ?_⟩
  · simp [enqueueOp, rpush, setEx, toJson, Job.new, alookup_aset_self]
  · simp [enqueueOp, rpush, setEx, getUuids, Job.new, alookup_aset_self]
  · simp [enqueueOp, rpush, setEx, statusOp, kvGet, toJson, fromJson, Job.new,
      alookup_aset_self]

/-- C6: each record write carries the TTL of its phase — the enqueue
write uses `expire0`, the claim-time `RUNNING` write uses exactly
`timeout + expire`, and the final write uses exactly `expire` (the
result-expiry), whatever the poll outcome was. -/
theorem writes_set_phase_ttl (name : String) (st0 st : Store)
    (uuid0 : String) (args : List String) (expire0 : Nat)
    (timeout freq expire : Nat) (fall : Bool)
    (funRes : Except String String) (arrival : Option Nat) (uuid : String)
    (rest : List String) (job : Job) (ttl0 : Nat)
    (hlist : alookup st.lists (uuidsKey name) = some (uuid :: rest))
    (hrec : alookup st.kv (jobKey name uuid) = some (Payload.jobPayload job, ttl0)) :
    kvTTL (enqueueOp name st0 uuid0 args expire0).1 (jobKey name uuid0) =
        some expire0
    ∧ (workClaim name st timeout expire).2 =
        ClaimRes.claimed uuid { job with status := Status.RUNNING }
    ∧ kvTTL (workClaim name st timeout expire).1 (jobKey name uuid) =
        some (timeout + expire)
    ∧ ∃ st2 final checks sleeps panicked,
        workIteration name st timeout freq expire fall funRes arrival =
          Except.ok (st2, WorkOutcome.done uuid final checks sleeps panicked)
        ∧ kvTTL st2 (jobKey name uuid) = some expire := by
  have hclaim := workClaim_claimed name st timeout expire uuid rest job ttl0 hlist hrec
  refine ⟨?_, ?_, ?_, ?_⟩
  · simp [enqueueOp, rpush, setEx, Job.new, kvTTL, alookup_aset_self]
  · rw [hclaim]
  · rw [hclaim]
    exact kvTTL_setEx_self _ _ _ _
  · refine ⟨setEx (setEx { st with lists := aset st.lists (uuidsKey name) rest }
        (jobKey name uuid) (toJson { job with status := Status.RUNNING })
        (timeout + expire))
      (jobKey name uuid)
      (toJson (runPoll timeout freq (recvAt arrival funRes)
        { job with status := Status.RUNNING }).1) expire,
      (runPoll timeout freq (recvAt arrival funRes)
        { job with status := Status.RUNNING }).1,
      (runPoll timeout freq (recvAt arrival funRes)
        { job with status := Status.RUNNING }).2.1,
      (runPoll timeout freq (recvAt arrival funRes)
        { job with status := Status.RUNNING }).2.2,
      fall && decide ((runPoll timeout freq (recvAt arrival funRes)
        { job with status := Status.RUNNING }).1.status = Status.LOST),
      ?_, ?_⟩
    · simp [workIteration, hclaim, workFinalize]
    · exact kvTTL_setEx_self _ _ _ _

/-- Witness for C6 at a concrete queue state. -/
theorem writes_set_phase_ttl_witness :
    (alookup (Store.mk [("q:u", (Payload.jobPayload (Job.new "u" []), 30))]
        [("q:uuids", ["u"])]).lists (uuidsKey "q") = some ("u" :: []))
    ∧ (alookup (Store.mk [("q:u", (Payload.jobPayload (Job.new "u" []), 30))]
        [("q:uuids", ["u"])]).kv (jobKey "q" "u") =
        some (Payload.jobPayload (Job.new "u" []), 30))
    ∧ (kvTTL (enqueueOp "q" Store.empty "v" [] 30).1 (jobKey "q" "v") = some 30
      ∧ (workClaim "q" (Store.mk
          [("q:u", (Payload.jobPayload (Job.new "u" []), 30))]
          [("q:uuids", ["u"])]) 5 7).2 =
          ClaimRes.claimed "u" { Job.new "u" [] with status := Status.RUNNING }
      ∧ kvTTL (workClaim "q" (Store.mk
          [("q:u", (Payload.jobPayload (Job.new "u" []), 30))]
          [("q:uuids", ["u"])]) 5 7).1 (jobKey "q" "u") = some (5 + 7)
      ∧ ∃ st2 final checks sleeps panicked,
          workIteration "q" (Store.mk
            [("q:u", (Payload.jobPayload (Job.new "u" []), 30))]
            [("q:uuids", ["u"])]) 5 7 7 false (Except.ok "r") (some 0) =
            Except.ok (st2, WorkOutcome.done "u" final checks sleeps panicked)
          ∧ kvTTL st2 (jobKey "q" "u") = some 7) :=
  ⟨by decide, by decide,
    writes_set_phase_ttl "q" Store.empty _ "v" [] 30 5 7 7 false
      (Except.ok "r") (some 0) "u" [] (Job.new "u" []) 30
      (by decide) (by decide)⟩

/-- C7: `status` and `result` behave identically on the shared read
path — `NotFound` when the key is absent (expired or never written),
`DecodeError` when the payload does not deserialize, and otherwise the
record's status field and optional result field respectively. -/
theorem read_paths_identical (name : String) (st : Store) (uuid : String) :
    (kvGet st (jobKey name uuid) = none →
      statusOp name st uuid = Except.error QErr.NotFound
      ∧ resultOp name st uuid = Except.error QErr.NotFound)
    ∧ (∀ s, kvGet st (jobKey name uuid) = some (Payload.corrupt s) →
      statusOp name st uuid = Except.error QErr.DecodeError
      ∧ resultOp name st uuid = Except.error QErr.DecodeError)
    ∧ (∀ j, kvGet st (jobKey name uuid) = some (Payload.jobPayload j) →
      statusOp name st uuid = Except.ok j.status
      ∧ resultOp name st uuid = Except.ok j.result) := by
  refine ⟨fun h => ?_, fun s h => ?_, fun j h => ?_⟩
  · simp [statusOp, resultOp, h]
  · simp [statusOp, resultOp, h, fromJson]
  · simp [statusOp, resultOp, h, fromJson]

/-- Witness for C7 at concrete stores exercising all three branches. -/
theorem read_paths_identical_witness :
    (statusOp "q" Store.empty "u" = Except.error QErr.NotFound
      ∧ resultOp "q" Store.empty "u" = Except.error QErr.NotFound)
    ∧ (statusOp "q" (Store.mk [("q:u", (Payload.corrupt "junk", 9))] []) "u" =
        Except.error QErr.DecodeError
      ∧ resultOp "q" (Store.mk [("q:u", (Payload.corrupt "junk", 9))] []) "u" =
        Except.error QErr.DecodeError)
    ∧ (statusOp "q" (Store.mk [("q:u", (Payload.jobPayload (Job.new "u" []), 9))]
          []) "u" = Except.ok (Job.new "u" []).status
      ∧ resultOp "q" (Store.mk [("q:u", (Payload.jobPayload (Job.new "u" []), 9))]
          []) "u" = Except.ok (Job.new "u" []).result) :=
  ⟨(read_paths_identical "q" Store.empty "u").1 (by decide),
   (read_paths_identical "q" _ "u").2.1 "junk" (by decide),
   (read_paths_identical "q" _ "u").2.2 (Job.new "u" []) (by decide)⟩

/-- C8 counterexample: at `timeout = 1`, `freq = 3` with no completion
signal, the supervising loop's sleeps are three 333 ms sleeps
(`1000 / 3` with integer division) totalling 999 ms — not the claimed
`timeout` seconds (1000 ms), and each sleep is not exactly `1 / freq`
seconds. -/
theorem poll_sleep_budget_counterexample :
    (runPoll 1 3 (recvAt none (Except.ok "r")) (Job.new "u" [])).2.2 =
      [333, 333, 333]
    ∧ ((runPoll 1 3 (recvAt none (Except.ok "r")) (Job.new "u" [])).2.2).sum ≠
      1 * 1000 := by
  constructor
  · rfl
  · decide

/-- C8 (amended): the loop polls at most `timeout * freq` times; each
sleep is `1000 / freq` milliseconds (integer division, the floor of
`1/freq` seconds). When the budget is exhausted with no signal it
performs exactly `timeout * freq` checks and `timeout * freq` sleeps of
`1000 / freq` ms, totalling `timeout * freq * (1000 / freq)` ms — which
equals `timeout` seconds exactly when `freq` divides 1000. -/
theorem poll_budget_floor_division (timeout freq : Nat)
    (recv recv' : Nat → Option (Status × Option String)) (job : Job)
    (hjob : job.status = Status.RUNNING)
    (hno : ∀ i, i < timeout * freq → recv i = none) :
    (runPoll timeout freq recv' job).2.1 ≤ timeout * freq
    ∧ (runPoll timeout freq recv job).2.1 = timeout * freq
    ∧ (runPoll timeout freq recv job).2.2 =
        List.replicate (timeout * freq) (1000 / freq)
    ∧ ((runPoll timeout freq recv job).2.2).sum =
        timeout * freq * (1000 / freq)
    ∧ (freq ∣ 1000 →
        ((runPoll timeout freq recv job).2.2).sum = timeout * 1000) := by
  have hchle : ∀ (n i : Nat) (j : Job),
      (pollLoop recv' freq n i j).2.1 ≤ n := by
    intro n
    induction n with
    | zero => intro i j; simp [pollLoop_zero]
    | succ m ih =>
      intro i j
      rw [pollLoop_succ]
      by_cases hc : ((recv' i).getD (Status.RUNNING, none)).1 = Status.RUNNING
      · simp [hc]
        exact ih _ _
      · simp [hc]
  have hmain := runPoll_no_signal timeout freq recv job hjob hno
  refine ⟨?_, ?_, ?_, ?_, ?_⟩
  · exact hchle (timeout * freq) 0 job
  · rw [hmain]
  · rw [hmain]
  · rw [hmain]
    simp [List.sum_replicate, Nat.smul_one_eq_cast]
  · intro hdvd
    rw [hmain]
    simp [List.sum_replicate, Nat.smul_one_eq_cast]
    rw [Nat.mul_assoc, Nat.mul_div_cancel' hdvd]

/-- Witness for C8 (amended) at `timeout = 2`, `freq = 2` (which
divides 1000). -/
theorem poll_budget_floor_division_witness :
    (Job.new "u" []).status = Status.RUNNING ∨
    ((Job.mk "u" Status.RUNNING [] none).status = Status.RUNNING
    ∧ (∀ i, i < 2 * 2 → recvAt none (Except.ok "r") i = none)
    ∧ ((runPoll 2 2 (recvAt (some 0) (Except.ok "r"))
          (Job.mk "u" Status.RUNNING [] none)).2.1 ≤ 2 * 2
      ∧ (runPoll 2 2 (recvAt none (Except.ok "r"))
          (Job.mk "u" Status.RUNNING [] none)).2.1 = 2 * 2
      ∧ (runPoll 2 2 (recvAt none (Except.ok "r"))
          (Job.mk "u" Status.RUNNING [] none)).2.2 =
          List.replicate (2 * 2) (1000 / 2)
      ∧ ((runPoll 2 2 (recvAt none (Except.ok "r"))
          (Job.mk "u" Status.RUNNING [] none)).2.2).sum = 2 * 2 * (1000 / 2)
      ∧ ((2 : Nat) ∣ 1000 →
          ((runPoll 2 2 (recvAt none (Except.ok "r"))
            (Job.mk "u" Status.RUNNING [] none)).2.2).sum = 2 * 1000))) :=
  Or.inr ⟨rfl, fun _ _ => rfl,
    poll_budget_floor_division 2 2 (recvAt none (Except.ok "r"))
      (recvAt (some 0) (Except.ok "r")) (Job.mk "u" Status.RUNNING [] none)
      rfl (fun _ _ => rfl)⟩

/-- C9: a `work` iteration that processes a job panics exactly when
`fall` is set and the final status is `LOST` (the returned flag is
`fall && final.status = LOST`), and in every case — panic included —
the state at the end of the iteration already holds the final record
persisted with TTL `expire`. -/
theorem lost_panic_after_persist (name : String) (st : Store)
    (timeout freq expire : Nat) (fall : Bool)
    (funRes : Except String String) (arrival : Option Nat) (uuid : String)
    (rest : List String) (job : Job) (ttl0 : Nat)
    (hlist : alookup st.lists (uuidsKey name) = some (uuid :: rest))
    (hrec : alookup st.kv (jobKey name uuid) = some (Payload.jobPayload job, ttl0)) :
    ∃ st2 final checks sleeps,
      workIteration name st timeout freq expire fall funRes arrival =
        Except.ok (st2, WorkOutcome.done uuid final checks sleeps
          (fall && decide (final.status = Status.LOST)))
      ∧ kvGet st2 (jobKey name uuid) = some (toJson final)
      ∧ kvTTL st2 (jobKey name uuid) = some expire := by
  have hclaim := workClaim_claimed name st timeout expire uuid rest job ttl0 hlist hrec
  refine ⟨setEx (setEx { st with lists := aset st.lists (uuidsKey name) rest }
      (jobKey name uuid) (toJson { job with status := Status.RUNNING })
      (timeout + expire))
    (jobKey name uuid)
    (toJson (runPoll timeout freq (recvAt arrival funRes)
      { job with status := Status.RUNNING }).1) expire,
    (runPoll timeout freq (recvAt arrival funRes)
      { job with status := Status.RUNNING }).1,
    (runPoll timeout freq (recvAt arrival funRes)
      { job with status := Status.RUNNING }).2.1,
    (runPoll timeout freq (recvAt arrival funRes)
      { job with status := Status.RUNNING }).2.2,
    ?_, ?_, ?_⟩
  · simp [workIteration, hclaim, workFinalize]
  · exact kvGet_setEx_self _ _ _ _
  · exact kvTTL_setEx_self _ _ _ _

/-- Witness for C9 at a concrete queue state where the job is lost and
`fall` is set, so the panic fires with the final record persisted. -/
theorem lost_panic_after_persist_witness :
    (alookup (Store.mk [("q:u", (Payload.jobPayload (Job.new "u" []), 30))]
        [("q:uuids", ["u"])]).lists (uuidsKey "q") = some ("u" :: []))
    ∧ (alookup (Store.mk [("q:u", (Payload.jobPayload (Job.new "u" []), 30))]
        [("q:uuids", ["u"])]).kv (jobKey "q" "u") =
        some (Payload.jobPayload (Job.new "u" []), 30))
    ∧ ∃ st2 final checks sleeps,
        workIteration "q"
          (Store.mk [("q:u", (Payload.jobPayload (Job.new "u" []), 30))]
            [("q:uuids", ["u"])]) 1 1 7 true (Except.ok "r") none =
          Except.ok (st2, WorkOutcome.done "u" final checks sleeps
            (true && decide (final.status = Status.LOST)))
        ∧ kvGet st2 (jobKey "q" "u") = some (toJson final)
        ∧ kvTTL st2 (jobKey "q" "u") = some 7 :=
  ⟨by decide, by decide,
    lost_panic_after_persist "q" _ 1 1 7 true (Except.ok "r") none "u" []
      (Job.new "u" []) 30 (by decide) (by decide)⟩

/-- C10: with `freq = 0` the poll budget `timeout * freq` is zero, so
the loop body runs zero times — zero checks and an empty list of
sleeps, hence the per-check `1000 / freq` sleep computation is never
performed — and the claimed job is persisted as `LOST` immediately,
whatever the processing function's outcome and arrival time. -/
theorem freq_zero_no_poll (name : String) (st : Store)
    (timeout expire : Nat) (fall : Bool)
    (funRes : Except String String) (arrival : Option Nat) (uuid : String)
    (rest : List String) (job : Job) (ttl0 : Nat)
    (hlist : alookup st.lists (uuidsKey name) = some (uuid :: rest))
    (hrec : alookup st.kv (jobKey name uuid) = some (Payload.jobPayload job, ttl0)) :
    ∃ st2,
      workIteration name st timeout 0 expire fall funRes arrival =
        Except.ok (st2, WorkOutcome.done uuid
          { job with status := Status.LOST } 0 [] fall)
      ∧ statusOp name st2 uuid = Except.ok Status.LOST := by
  have hclaim := workClaim_claimed name st timeout expire uuid rest job ttl0 hlist hrec
  have hz : timeout * 0 = 0 := Nat.mul_zero timeout
  refine ⟨setEx (setEx { st with lists := aset st.lists (uuidsKey name) rest }
      (jobKey name uuid) (toJson { job with status := Status.RUNNING })
      (timeout + expire))
    (jobKey name uuid)
    (toJson { job with status := Status.LOST }) expire, ?_, ?_⟩
  · simp [workIteration, hclaim, runPoll, hz, pollLoop_zero, workFinalize]
  · simp [statusOp, kvGet_setEx_self, toJson, fromJson]

/-- Witness for C10: the processing function completes instantly
(message available at check 0) yet the job is recorded `LOST`. -/
theorem freq_zero_no_poll_witness :
    (alookup (Store.mk [("q:u", (Payload.jobPayload (Job.new "u" []), 30))]
        [("q:uuids", ["u"])]).lists (uuidsKey "q") = some ("u" :: []))
    ∧ (alookup (Store.mk [("q:u", (Payload.jobPayload (Job.new "u" []), 30))]
        [("q:uuids", ["u"])]).kv (jobKey "q" "u") =
        some (Payload.jobPayload (Job.new "u" []), 30))
    ∧ ∃ st2,
        workIteration "q"
          (Store.mk [("q:u", (Payload.jobPayload (Job.new "u" []), 30))]
            [("q:uuids", ["u"])]) 5 0 7 false (Except.ok "r") (some 0) =
          Except.ok (st2, WorkOutcome.done "u"
            { Job.new "u" [] with status := Status.LOST } 0 [] false)
        ∧ statusOp "q" st2 "u" = Except.ok Status.LOST :=
  ⟨by decide, by decide,
    freq_zero_no_poll "q" _ 5 7 false (Except.ok "r") (some 0) "u" []
      (Job.new "u" []) 30 (by decide) (by decide)⟩

/-! ## Lemmas for the system-level lifecycle invariant -/

theorem getJob_setEx (name : String) (st : Store) (k : String) (p : Payload)
    (ttl : Nat) (u : String) :
    getJob name (setEx st k p ttl) u =
      if jobKey name u = k then fromJson p else getJob name st u := by
  by_cases h : jobKey name u = k
  · rw [if_pos h, ← h]
    simp [getJob, kvGet, setEx, alookup_aset_self]
  · rw [if_neg h]
    simp [getJob, kvGet, setEx, alookup_aset_ne _ _ _ _ h]

theorem getJob_aremove (name : String) (st : Store) (k : String) (u : String) :
    getJob name { st with kv := aremove st.kv k } u =
      if jobKey name u = k then none else getJob name st u := by
  by_cases h : jobKey name u = k
  · rw [if_pos h]
    simp [getJob, kvGet, alookup_aremove, h]
  · rw [if_neg h]
    simp [getJob, kvGet, alookup_aremove, h]

theorem getJob_lists_irrel (name : String) (st : Store)
    (L : List (String × List String)) (u : String) :
    getJob name { st with lists := L } u = getJob name st u := rfl

theorem getJob_rpush (name : String) (st : Store) (k v : String) (u : String) :
    getJob name (rpush st k v) u = getJob name st u := rfl

theorem getUuids_setEx (name : String) (st : Store) (k : String) (p : Payload)
    (ttl : Nat) : getUuids name (setEx st k p ttl) = getUuids name st := rfl

theorem getUuids_rpush_self (name : String) (st : Store) (v : String) :
    getUuids name (rpush st (uuidsKey name) v) = getUuids name st ++ [v] := by
  simp [getUuids, rpush, alookup_aset_self]

theorem getUuids_aremove_kv (name : String) (st : Store) (k : String) :
    getUuids name { st with kv := aremove st.kv k } = getUuids name st := rfl

theorem findWorker_eq_none_ne {ws : List (String × Job)} {u : String}
    (h : findWorker ws u = none) : ∀ p ∈ ws, p.1 ≠ u := by
  induction ws with
  | nil => intro p hp; simp at hp
  | cons hd tl ih =>
    obtain ⟨v, j0⟩ := hd
    by_cases hv : v = u
    · rw [findWorker, if_pos hv] at h
      exact absurd h (by simp)
    · rw [findWorker, if_neg hv] at h
      intro p hp
      rcases List.mem_cons.mp hp with hp | hp
      · rw [hp]
        exact hv
      · exact ih h p hp

theorem mem_map_fst_exists {ws : List (String × Job)} {u : String}
    (h : u ∈ ws.map Prod.fst) : ∃ j, (u, j) ∈ ws := by
  rcases List.mem_map.mp h with ⟨p, hp, hfst⟩
  exact ⟨p.2, by rwa [← hfst, Prod.mk.eta]⟩

theorem pollLoop_recvAt_status (arrival : Option Nat)
    (funRes : Except String String) (freq : Nat) :
    ∀ (n i : Nat) (job : Job), job.status = Status.RUNNING →
      (pollLoop (recvAt arrival funRes) freq n i job).1.status = Status.RUNNING
      ∨ (pollLoop (recvAt arrival funRes) freq n i job).1.status =
          (outcomeOf funRes).1 := by
  intro n
  induction n with
  | zero =>
    intro i job hjob
    rw [pollLoop_zero]
    exact Or.inl hjob
  | succ m ih =>
    intro i job hjob
    rw [pollLoop_succ]
    rcases hr : recvAt arrival funRes i with _ | sr
    · simp only [hr, Option.getD_none]
      simp only [if_true]
      exact ih (i + 1) _ rfl
    · have hsr : sr = outcomeOf funRes := by
        rcases arrival with _ | a
        · simp [recvAt] at hr
        · rw [recvAt] at hr
          by_cases ha : a ≤ i
          · rw [if_pos ha] at hr
            exact (Option.some_inj.mp hr).symm
          · rw [if_neg ha] at hr
            exact absurd hr (by simp)
      subst hsr
      simp [outcomeOf_fst_ne_running funRes]

theorem runPoll_recvAt_terminal (timeout freq : Nat) (arrival : Option Nat)
    (funRes : Except String String) (job : Job)
    (hjob : job.status = Status.RUNNING) :
    (runPoll timeout freq (recvAt arrival funRes) job).1.status = Status.LOST
    ∨ (runPoll timeout freq (recvAt arrival funRes) job).1.status =
        Status.FINISHED
    ∨ (runPoll timeout freq (recvAt arrival funRes) job).1.status =
        Status.FAILED := by
  rcases pollLoop_recvAt_status arrival funRes freq (timeout * freq) 0 job hjob
    with h | h
  · left
    simp [runPoll, h]
  · rcases funRes with e | o
    · right; right
      simp [outcomeOf] at h
      simp [runPoll, h]
    · right; left
      simp [outcomeOf] at h
      simp [runPoll, h]

theorem inv_enq (name : String) (s s' : SysState) (u : String)
    (args : List String) (exp : Nat) (hinv : Inv name s)
    (h : applyAct name s (Act.enq u args exp) = some s') : Inv name s' := by
  simp only [applyAct] at h
  by_cases hg : u ∈ getUuids name s.store
      ∨ (alookup s.store.kv (jobKey name u)).isSome = true
      ∨ (findWorker s.workers u).isSome = true
  · rw [if_pos hg] at h
    exact absurd h (by simp)
  · rw [if_neg hg] at h
    push_neg at hg
    obtain ⟨hg1, hg2, hg3⟩ := hg
    have hg2' : alookup s.store.kv (jobKey name u) = none := by
      rcases hx : alookup s.store.kv (jobKey name u) with _ | v
      · rfl
      · rw [hx] at hg2
        simp at hg2
    have hg3' : findWorker s.workers u = none := by
      rcases hx : findWorker s.workers u with _ | v
      · rfl
      · rw [hx] at hg3
        simp at hg3
    have hs' : s' = { s with store := (enqueueOp name s.store u args exp).1 } :=
      (Option.some_inj.mp h).symm
    subst hs'
    obtain ⟨I1, I2, I6, I3, I4, I5⟩ := hinv
    have hU : getUuids name (enqueueOp name s.store u args exp).1 =
        getUuids name s.store ++ [u] := by
      simp [enqueueOp, Job.new, getUuids_rpush_self, getUuids_setEx]
    have hG : ∀ v, getJob name (enqueueOp name s.store u args exp).1 v =
        if jobKey name v = jobKey name u then some (Job.new u args)
        else getJob name s.store v := by
      intro v
      show getJob name (rpush (setEx s.store (jobKey name u)
        (toJson (Job.new u args)) exp) (uuidsKey name) u) v = _
      rw [getJob_rpush, getJob_setEx]
      simp [toJson, fromJson]
    refine ⟨?_, ?_, I6, ?_, ?_, I5⟩
    · intro v hv j hj
      rw [hG v] at hj
      by_cases hkey : jobKey name v = jobKey name u
      · rw [if_pos hkey] at hj
        rw [Option.some_inj] at hj
        rw [← hj]
        rfl
      · rw [if_neg hkey] at hj
        rw [show ({ s with store := (enqueueOp name s.store u args exp).1 } :
          SysState).store = (enqueueOp name s.store u args exp).1 from rfl,
          hU] at hv
        rcases List.mem_append.mp hv with hv | hv
        · exact I1 v hv j hj
        · have hvu : v = u := by simpa using hv
          exact absurd (by rw [hvu]) hkey
    · intro p hp j hj
      rw [hG p.1] at hj
      by_cases hkey : jobKey name p.1 = jobKey name u
      · exact absurd (jobKey_inj name hkey) (findWorker_eq_none_ne hg3' p hp)
      · rw [if_neg hkey] at hj
        exact I2 p hp j hj
    · intro p hp
      rw [show ({ s with store := (enqueueOp name s.store u args exp).1 } :
        SysState).store = (enqueueOp name s.store u args exp).1 from rfl, hU]
      intro hmem
      rcases List.mem_append.mp hmem with hm | hm
      · exact I3 p hp hm
      · exact (findWorker_eq_none_ne hg3' p hp) (by simpa using hm)
    · rw [show ({ s with store := (enqueueOp name s.store u args exp).1 } :
        SysState).store = (enqueueOp name s.store u args exp).1 from rfl, hU]
      simp [List.nodup_append, I4]
      exact hg1

theorem inv_expire (name : String) (s s' : SysState) (k : String)
    (hinv : Inv name s)
    (h : applyAct name s (Act.expireKey k) = some s') : Inv name s' := by
  simp only [applyAct] at h
  have hs' : s' = { s with store := { s.store with kv := aremove s.store.kv k } } :=
    (Option.some_inj.mp h).symm
  subst hs'
  obtain ⟨I1, I2, I6, I3, I4, I5⟩ := hinv
  refine ⟨?_, ?_, I6, I3, I4, I5⟩
  · intro v hv j hj
    rw [show ({ s with store := { s.store with kv := aremove s.store.kv k } } :
      SysState).store = { s.store with kv := aremove s.store.kv k } from rfl,
      getJob_aremove] at hj
    by_cases hkey : jobKey name v = k
    · rw [if_pos hkey] at hj
      exact absurd hj (by simp)
    · rw [if_neg hkey] at hj
      exact I1 v hv j hj
  · intro p hp j hj
    rw [show ({ s with store := { s.store with kv := aremove s.store.kv k } } :
      SysState).store = { s.store with kv := aremove s.store.kv k } from rfl,
      getJob_aremove] at hj
    by_cases hkey : jobKey name p.1 = k
    · rw [if_pos hkey] at hj
      exact absurd hj (by simp)
    · rw [if_neg hkey] at hj
      exact I2 p hp j hj

theorem inv_claim_pop_only (name : String) (s : SysState) (u0 : String)
    (rest : List String) (hinv : Inv name s)
    (hl : alookup s.store.lists (uuidsKey name) = some (u0 :: rest)) :
    Inv name { s with store :=
      { s.store with lists := aset s.store.lists (uuidsKey name) rest } } := by
  obtain ⟨I1, I2, I6, I3, I4, I5⟩ := hinv
  have hU0 : getUuids name s.store = u0 :: rest := by
    simp [getUuids, hl]
  have hU' : getUuids name
      { s.store with lists := aset s.store.lists (uuidsKey name) rest } = rest := by
    simp [getUuids, alookup_aset_self]
  refine ⟨?_, ?_, I6, ?_, ?_, I5⟩
  · intro v hv j hj
    rw [show ∀ x : SysState, x.store = x.store from fun _ => rfl] at hv
    rw [hU'] at hv
    exact I1 v (by rw [hU0]; exact List.mem_cons_of_mem _ hv) j hj
  · intro p hp j hj
    exact I2 p hp j hj
  · intro p hp
    rw [hU']
    have h3 := I3 p hp
    rw [hU0] at h3
    intro hmem
    exact h3 (List.mem_cons_of_mem _ hmem)
  · rw [hU']
    rw [hU0] at I4
    exact (List.nodup_cons.mp I4).2

theorem inv_claim (name : String) (s s' : SysState) (t e : Nat)
    (hinv : Inv name s)
    (h : applyAct name s (Act.claim t e) = some s') : Inv name s' := by
  simp only [applyAct] at h
  rcases hl : alookup s.store.lists (uuidsKey name) with _ | l
  · have hw : workClaim name s.store t e = (s.store, ClaimRes.noJob) := by
      simp [workClaim, blpop, hl]
    rw [hw] at h
    have hs' : s' = { s with store := s.store } := (Option.some_inj.mp h).symm
    subst hs'
    exact hinv
  · rcases l with _ | ⟨u0, rest⟩
    · have hw : workClaim name s.store t e = (s.store, ClaimRes.noJob) := by
        simp [workClaim, blpop, hl]
      rw [hw] at h
      have hs' : s' = { s with store := s.store } := (Option.some_inj.mp h).symm
      subst hs'
      exact hinv
    · rcases hk : alookup s.store.kv (jobKey name u0) with _ | pr
      · have hw : workClaim name s.store t e =
            ({ s.store with lists := aset s.store.lists (uuidsKey name) rest },
             ClaimRes.skipped u0) := by
          simp [workClaim, blpop, hl, kvGet, hk]
        rw [hw] at h
        have hs' : s' = { s with store :=
            { s.store with lists := aset s.store.lists (uuidsKey name) rest } } :=
          (Option.some_inj.mp h).symm
        subst hs'
        exact inv_claim_pop_only name s u0 rest hinv hl
      · rcases pr with ⟨p, ttl⟩
        rcases p with jb | str
        · -- decoded: the job is claimed
          have hw := workClaim_claimed name s.store t e u0 rest jb ttl hl hk
          rw [hw] at h
          have hs' : s' = SysState.mk
              (setEx { s.store with lists := aset s.store.lists (uuidsKey name) rest }
                (jobKey name u0) (toJson { jb with status := Status.RUNNING }) (t + e))
              (s.workers ++ [(u0, { jb with status := Status.RUNNING })]) :=
            (Option.some_inj.mp h).symm
          subst hs'
          obtain ⟨I1, I2, I6, I3, I4, I5⟩ := hinv
          have hU0 : getUuids name s.store = u0 :: rest := by
            simp [getUuids, hl]
          have hnd : u0 ∉ rest := by
            rw [hU0] at I4
            exact (List.nodup_cons.mp I4).1
          have hU' : getUuids name (setEx
              { s.store with lists := aset s.store.lists (uuidsKey name) rest }
              (jobKey name u0) (toJson { jb with status := Status.RUNNING })
              (t + e)) = rest := by
            rw [getUuids_setEx]
            simp [getUuids, alookup_aset_self]
          have hG : ∀ v, getJob name (setEx
              { s.store with lists := aset s.store.lists (uuidsKey name) rest }
              (jobKey name u0) (toJson { jb with status := Status.RUNNING })
              (t + e)) v =
              if jobKey name v = jobKey name u0
              then some { jb with status := Status.RUNNING }
              else getJob name s.store v := by
            intro v
            rw [getJob_setEx]
            by_cases hkey : jobKey name v = jobKey name u0
            · rw [if_pos hkey, if_pos hkey]
              rfl
            · rw [if_neg hkey, if_neg hkey]
              exact getJob_lists_irrel name s.store _ v
          refine ⟨?_, ?_, ?_, ?_, ?_, ?_⟩
          · intro v hv j hj
            rw [hU'] at hv
            rw [hG v] at hj
            by_cases hkey : jobKey name v = jobKey name u0
            · exact absurd (jobKey_inj name hkey ▸ hv) hnd
            · rw [if_neg hkey] at hj
              exact I1 v (by rw [hU0]; exact List.mem_cons_of_mem _ hv) j hj
          · intro p hp j hj
            rw [hG p.1] at hj
            rcases List.mem_append.mp hp with hp | hp
            · by_cases hkey : jobKey name p.1 = jobKey name u0
              · have hp1 : p.1 = u0 := jobKey_inj name hkey
                have h3 := I3 p hp
                rw [hU0, hp1] at h3
                exact absurd (List.mem_cons_self _ _) h3
              · rw [if_neg hkey] at hj
                exact I2 p hp j hj
            · have hp' : p = (u0, { jb with status := Status.RUNNING }) := by
                simpa using hp
              rw [hp'] at hj
              rw [if_pos rfl] at hj
              rw [Option.some_inj] at hj
              rw [← hj]
          · intro p hp
            rcases List.mem_append.mp hp with hp | hp
            · exact I6 p hp
            · have hp' : p = (u0, { jb with status := Status.RUNNING }) := by
                simpa using hp
              rw [hp']
          · intro p hp
            rw [hU']
            rcases List.mem_append.mp hp with hp | hp
            · have h3 := I3 p hp
              rw [hU0] at h3
              intro hmem
              exact h3 (List.mem_cons_of_mem _ hmem)
            · have hp' : p = (u0, { jb with status := Status.RUNNING }) := by
                simpa using hp
              rw [hp']
              exact hnd
          · rw [hU']
            rw [hU0] at I4
            exact (List.nodup_cons.mp I4).2
          · rw [List.map_append]
            simp only [List.map_cons, List.map_nil]
            rw [List.nodup_append]
            refine ⟨I5, List.nodup_singleton _, ?_⟩
            intro x hx hx1
            have hxu : x = u0 := by simpa using hx1
            rw [hxu] at hx
            obtain ⟨j0, hj0⟩ := mem_map_fst_exists hx
            have h3 := I3 (u0, j0) hj0
            rw [hU0] at h3
            exact h3 (List.mem_cons_self _ _)
        · -- corrupt payload: decode fails, uuid is consumed
          have hw : workClaim name s.store t e =
              ({ s.store with lists := aset s.store.lists (uuidsKey name) rest },
               ClaimRes.decodeFail u0) := by
            simp [workClaim, blpop, hl, kvGet, hk, fromJson]
          rw [hw] at h
          have hs' : s' = { s with store :=
              { s.store with lists := aset s.store.lists (uuidsKey name) rest } } :=
            (Option.some_inj.mp h).symm
          subst hs'
          exact inv_claim_pop_only name s u0 rest hinv hl

theorem inv_fin (name : String) (s s' : SysState) (u : String)
    (t f e : Nat) (fall : Bool) (funRes : Except String String)
    (arrival : Option Nat) (hinv : Inv name s)
    (h : applyAct name s (Act.fin u t f e fall funRes arrival) = some s') :
    Inv name s' := by
  simp only [applyAct] at h
  rcases hf : findWorker s.workers u with _ | jb
  · rw [hf] at h
    exact absurd h (by simp)
  · rw [hf] at h
    have hs' : s' = SysState.mk
        (setEx s.store (jobKey name u)
          (toJson (runPoll t f (recvAt arrival funRes) jb).1) e)
        (removeWorker s.workers u) :=
      (Option.some_inj.mp h).symm
    subst hs'
    obtain ⟨I1, I2, I6, I3, I4, I5⟩ := hinv
    have hmem : (u, jb) ∈ s.workers := findWorker_some_mem hf
    have hjbR : jb.status = Status.RUNNING := I6 (u, jb) hmem
    have hterm := runPoll_recvAt_terminal t f arrival funRes jb hjbR
    have hG : ∀ v, getJob name (setEx s.store (jobKey name u)
        (toJson (runPoll t f (recvAt arrival funRes) jb).1) e) v =
        if jobKey name v = jobKey name u
        then some (runPoll t f (recvAt arrival funRes) jb).1
        else getJob name s.store v := by
      intro v
      rw [getJob_setEx]
      by_cases hkey : jobKey name v = jobKey name u
      · rw [if_pos hkey, if_pos hkey]
        rfl
      · rw [if_neg hkey, if_neg hkey]
    have hU : getUuids name (setEx s.store (jobKey name u)
        (toJson (runPoll t f (recvAt arrival funRes) jb).1) e) =
        getUuids name s.store := getUuids_setEx name s.store _ _ _
    refine ⟨?_, ?_, ?_, ?_, ?_, ?_⟩
    · intro v hv j hj
      rw [hU] at hv
      rw [hG v] at hj
      by_cases hkey : jobKey name v = jobKey name u
      · have hvu : v = u := jobKey_inj name hkey
        rw [hvu] at hv
        exact absurd hv (I3 (u, jb) hmem)
      · rw [if_neg hkey] at hj
        exact I1 v hv j hj
    · intro p hp j hj
      rw [hG p.1] at hj
      have hpw : p ∈ s.workers := mem_removeWorker hp
      have hpne : p.1 ≠ u := mem_removeWorker_fst_ne I5 hp
      by_cases hkey : jobKey name p.1 = jobKey name u
      · exact absurd (jobKey_inj name hkey) hpne
      · rw [if_neg hkey] at hj
        exact I2 p hpw j hj
    · intro p hp
      exact I6 p (mem_removeWorker hp)
    · intro p hp
      rw [hU]
      exact I3 p (mem_removeWorker hp)
    · rw [hU]
      exact I4
    · exact List.Nodup.sublist (map_fst_removeWorker_sublist s.workers u) I5

/-- Invariant preservation for every action. -/
theorem inv_preserved (name : String) (s s' : SysState) (a : Act)
    (hinv : Inv name s) (h : applyAct name s a = some s') : Inv name s' := by
  cases a with
  | enq u args exp => exact inv_enq name s s' u args exp hinv h
  | claim t e => exact inv_claim name s s' t e hinv h
  | fin u t f e fall funRes arrival =>
    exact inv_fin name s s' u t f e fall funRes arrival hinv h
  | expireKey k => exact inv_expire name s s' k hinv h

/-- The invariant holds initially. -/
theorem inv_init (name : String) : Inv name initState := by
  refine ⟨?_, ?_, ?_, ?_, ?_, ?_⟩ <;>
    simp [initState, Store.empty, getUuids, alookup]

/-- The invariant holds in every reachable state. -/
theorem inv_run (name : String) :
    ∀ (acts : List Act) (s s' : SysState), Inv name s →
      runActs name acts s = some s' → Inv name s' := by
  intro acts
  induction acts with
  | nil =>
    intro s s' hinv h
    rw [runActs] at h
    rw [← Option.some_inj.mp h]
    exact hinv
  | cons a rest ih =>
    intro s s' hinv h
    rw [runActs] at h
    rcases ha : applyAct name s a with _ | s1
    · rw [ha] at h
      exact absurd h (by simp)
    · rw [ha] at h
      exact ih s1 s' (inv_preserved name s s1 a hinv ha) h

theorem getJob_enqueueOp (name : String) (st : Store) (u0 : String)
    (args : List String) (exp : Nat) (v : String) :
    getJob name (enqueueOp name st u0 args exp).1 v =
      if jobKey name v = jobKey name u0 then some (Job.new u0 args)
      else getJob name st v := by
  show getJob name (rpush (setEx st (jobKey name u0)
    (toJson (Job.new u0 args)) exp) (uuidsKey name) u0) v = _
  rw [getJob_rpush, getJob_setEx]
  simp [toJson, fromJson]

/-- Any single program action moves a record's status only along the
allowed edges, out of `QUEUED` only by a claim, and never out of a
terminal status. -/
theorem step_status (name : String) (s s' : SysState) (a : Act) (u : String)
    (j j' : Job) (hinv : Inv name s)
    (h : applyAct name s a = some s')
    (hj : getJob name s.store u = some j)
    (hj' : getJob name s'.store u = some j') :
    j'.status = j.status
    ∨ (j.status = Status.QUEUED ∧ j'.status = Status.RUNNING ∧ a.isClaim = true)
    ∨ (j.status = Status.RUNNING ∧ (j'.status = Status.FINISHED
        ∨ j'.status = Status.FAILED ∨ j'.status = Status.LOST)) := by
  obtain ⟨I1, I2, I6, I3, I4, I5⟩ := hinv
  cases a with
  | enq u0 args exp =>
    left
    simp only [applyAct] at h
    by_cases hg : u0 ∈ getUuids name s.store
        ∨ (alookup s.store.kv (jobKey name u0)).isSome = true
        ∨ (findWorker s.workers u0).isSome = true
    · rw [if_pos hg] at h
      exact absurd h (by simp)
    · rw [if_neg hg] at h
      push_neg at hg
      obtain ⟨hg1, hg2, hg3⟩ := hg
      have hg2' : alookup s.store.kv (jobKey name u0) = none := by
        rcases hx : alookup s.store.kv (jobKey name u0) with _ | v
        · rfl
        · rw [hx] at hg2
          simp at hg2
      have hs' : s' = { s with store := (enqueueOp name s.store u0 args exp).1 } :=
        (Option.some_inj.mp h).symm
      subst hs'
      rw [show ({ s with store := (enqueueOp name s.store u0 args exp).1 } :
        SysState).store = (enqueueOp name s.store u0 args exp).1 from rfl,
        getJob_enqueueOp] at hj'
      by_cases hkey : jobKey name u = jobKey name u0
      · have hnone : getJob name s.store u = none := by
          simp [getJob, kvGet, hkey, hg2']
        rw [hnone] at hj
        exact absurd hj (by simp)
      · rw [if_neg hkey] at hj'
        rw [hj] at hj'
        rw [Option.some_inj.mp hj']
  | claim t e =>
    simp only [applyAct] at h
    rcases hl : alookup s.store.lists (uuidsKey name) with _ | l
    · have hw : workClaim name s.store t e = (s.store, ClaimRes.noJob) := by
        simp [workClaim, blpop, hl]
      rw [hw] at h
      have hs' : s' = { s with store := s.store } := (Option.some_inj.mp h).symm
      subst hs'
      rw [hj] at hj'
      exact Or.inl (by rw [Option.some_inj.mp hj'])
    · rcases l with _ | ⟨u0, rest⟩
      · have hw : workClaim name s.store t e = (s.store, ClaimRes.noJob) := by
          simp [workClaim, blpop, hl]
        rw [hw] at h
        have hs' : s' = { s with store := s.store } := (Option.some_inj.mp h).symm
        subst hs'
        rw [hj] at hj'
        exact Or.inl (by rw [Option.some_inj.mp hj'])
      · rcases hk : alookup s.store.kv (jobKey name u0) with _ | pr
        · have hw : workClaim name s.store t e =
              ({ s.store with lists := aset s.store.lists (uuidsKey name) rest },
               ClaimRes.skipped u0) := by
            simp [workClaim, blpop, hl, kvGet, hk]
          rw [hw] at h
          have hs' : s' = { s with store :=
              { s.store with lists := aset s.store.lists (uuidsKey name) rest } } :=
            (Option.some_inj.mp h).symm
          subst hs'
          rw [show ({ s with store := { s.store with
              lists := aset s.store.lists (uuidsKey name) rest } } :
            SysState).store = { s.store with
              lists := aset s.store.lists (uuidsKey name) rest } from rfl,
            getJob_lists_irrel, hj] at hj'
          exact Or.inl (by rw [Option.some_inj.mp hj'])
        · rcases pr with ⟨p, ttl⟩
          rcases p with jb | str
          · have hw := workClaim_claimed name s.store t e u0 rest jb ttl hl hk
            rw [hw] at h
            have hs' : s' = SysState.mk
                (setEx { s.store with
                    lists := aset s.store.lists (uuidsKey name) rest }
                  (jobKey name u0)
                  (toJson { jb with status := Status.RUNNING }) (t + e))
                (s.workers ++ [(u0, { jb with status := Status.RUNNING })]) :=
              (Option.some_inj.mp h).symm
            subst hs'
            rw [show (SysState.mk (setEx { s.store with
                lists := aset s.store.lists (uuidsKey name) rest }
                (jobKey name u0)
                (toJson { jb with status := Status.RUNNING }) (t + e))
                (s.workers ++ [(u0, { jb with status := Status.RUNNING })])).store =
              setEx { s.store with
                lists := aset s.store.lists (uuidsKey name) rest }
                (jobKey name u0)
                (toJson { jb with status := Status.RUNNING }) (t + e) from rfl,
              getJob_setEx] at hj'
            by_cases hkey : jobKey name u = jobKey name u0
            · rw [if_pos hkey] at hj'
              have hju : getJob name s.store u = some jb := by
                simp [getJob, kvGet, hkey, hk, fromJson]
              rw [hju] at hj
              have hjjb : j = jb := Option.some_inj.mp hj.symm
              have hu0mem : u0 ∈ getUuids name s.store := by
                simp [getUuids, hl]
              have hju0 : getJob name s.store u0 = some jb := by
                simp [getJob, kvGet, hk, fromJson]
              have hQ : jb.status = Status.QUEUED := I1 u0 hu0mem jb hju0
              have hj'e : j' = { jb with status := Status.RUNNING } := by
                have := Option.some_inj.mp hj'
                simp [toJson, fromJson] at this
                exact this.symm
              right
              left
              refine ⟨by rw [hjjb]; exact hQ, by rw [hj'e], rfl⟩
            · rw [if_neg hkey, getJob_lists_irrel, hj] at hj'
              exact Or.inl (by rw [Option.some_inj.mp hj'])
          · have hw : workClaim name s.store t e =
                ({ s.store with lists := aset s.store.lists (uuidsKey name) rest },
                 ClaimRes.decodeFail u0) := by
              simp [workClaim, blpop, hl, kvGet, hk, fromJson]
            rw [hw] at h
            have hs' : s' = { s with store :=
                { s.store with
                  lists := aset s.store.lists (uuidsKey name) rest } } :=
              (Option.some_inj.mp h).symm
            subst hs'
            rw [show ({ s with store := { s.store with
                lists := aset s.store.lists (uuidsKey name) rest } } :
              SysState).store = { s.store with
                lists := aset s.store.lists (uuidsKey name) rest } from rfl,
              getJob_lists_irrel, hj] at hj'
            exact Or.inl (by rw [Option.some_inj.mp hj'])
  | fin uF t f e fall funRes arrival =>
    simp only [applyAct] at h
    rcases hf : findWorker s.workers uF with _ | jb
    · rw [hf] at h
      exact absurd h (by simp)
    · rw [hf] at h
      have hs' : s' = SysState.mk
          (setEx s.store (jobKey name uF)
            (toJson (runPoll t f (recvAt arrival funRes) jb).1) e)
          (removeWorker s.workers uF) :=
        (Option.some_inj.mp h).symm
      subst hs'
      rw [show (SysState.mk (setEx s.store (jobKey name uF)
          (toJson (runPoll t f (recvAt arrival funRes) jb).1) e)
          (removeWorker s.workers uF)).store =
        setEx s.store (jobKey name uF)
          (toJson (runPoll t f (recvAt arrival funRes) jb).1) e from rfl,
        getJob_setEx] at hj'
      have hmem : (uF, jb) ∈ s.workers := findWorker_some_mem hf
      by_cases hkey : jobKey name u = jobKey name uF
      · rw [if_pos hkey] at hj'
        have hju : getJob name s.store uF = getJob name s.store u := by
          rw [show getJob name s.store uF =
            (kvGet s.store (jobKey name uF)).bind fromJson from rfl, ← hkey]
          rfl
        have hR : j.status = Status.RUNNING := I2 (uF, jb) hmem j (by rw [hju]; exact hj)
        have hjbR : jb.status = Status.RUNNING := I6 (uF, jb) hmem
        have hterm := runPoll_recvAt_terminal t f arrival funRes jb hjbR
        have hj'e : j' = (runPoll t f (recvAt arrival funRes) jb).1 := by
          have := Option.some_inj.mp hj'
          simp [toJson, fromJson] at this
          exact this.symm
        right
        right
        refine ⟨hR, ?_⟩
        rw [hj'e]
        rcases hterm with ht | ht | ht
        · exact Or.inr (Or.inr ht)
        · exact Or.inl ht
        · exact Or.inr (Or.inl ht)
      · rw [if_neg hkey, hj] at hj'
        exact Or.inl (by rw [Option.some_inj.mp hj'])
  | expireKey k =>
    simp only [applyAct] at h
    have hs' : s' = { s with store :=
        { s.store with kv := aremove s.store.kv k } } :=
      (Option.some_inj.mp h).symm
    subst hs'
    rw [show ({ s with store := { s.store with kv := aremove s.store.kv k } } :
      SysState).store = { s.store with kv := aremove s.store.kv k } from rfl,
      getJob_aremove] at hj'
    by_cases hkey : jobKey name u = k
    · rw [if_pos hkey] at hj'
      exact absurd hj' (by simp)
    · rw [if_neg hkey, hj] at hj'
      exact Or.inl (by rw [Option.some_inj.mp hj'])

/-- C5: along any run of the program's operations (enqueue, worker
claim, worker finalization, store expiry) from the empty initial state,
a record's status changes only along `QUEUED → RUNNING` and
`RUNNING → FINISHED | FAILED | LOST`; it leaves `QUEUED` only through a
worker claim, and a record in `FINISHED`, `FAILED` or `LOST` (for which
the first disjunct is the only possible one) never changes status. -/
theorem status_transition_only_forward (name : String) (acts : List Act)
    (a : Act) (s s' : SysState) (u : String) (j j' : Job)
    (hrun : runActs name acts initState = some s)
    (hstep : applyAct name s a = some s')
    (hj : getJob name s.store u = some j)
    (hj' : getJob name s'.store u = some j') :
    j'.status = j.status
    ∨ (j.status = Status.QUEUED ∧ j'.status = Status.RUNNING ∧ a.isClaim = true)
    ∨ (j.status = Status.RUNNING ∧ (j'.status = Status.FINISHED
        ∨ j'.status = Status.FAILED ∨ j'.status = Status.LOST)) :=
  step_status name s s' a u j j'
    (inv_run name acts initState s (inv_init name) hrun) hstep hj hj'

/-- Witness for C5: the state reached by enqueuing one job, stepped by
a worker claim, moves the record from `QUEUED` to `RUNNING`. -/
theorem status_transition_only_forward_witness :
    runActs "q" [Act.enq "u" [] 30] initState = some (SysState.mk
      (Store.mk [("q:u", (Payload.jobPayload (Job.mk "u" Status.QUEUED [] none), 30))]
        [("q:uuids", ["u"])]) [])
    ∧ applyAct "q" (SysState.mk
        (Store.mk [("q:u", (Payload.jobPayload (Job.mk "u" Status.QUEUED [] none), 30))]
          [("q:uuids", ["u"])]) []) (Act.claim 5 7) = some (SysState.mk
      (Store.mk [("q:u", (Payload.jobPayload (Job.mk "u" Status.RUNNING [] none), 12))]
        [("q:uuids", [])]) [("u", Job.mk "u" Status.RUNNING [] none)])
    ∧ getJob "q" (SysState.mk
        (Store.mk [("q:u", (Payload.jobPayload (Job.mk "u" Status.QUEUED [] none), 30))]
          [("q:uuids", ["u"])]) []).store "u" =
        some (Job.mk "u" Status.QUEUED [] none)
    ∧ getJob "q" (SysState.mk
        (Store.mk [("q:u", (Payload.jobPayload (Job.mk "u" Status.RUNNING [] none), 12))]
          [("q:uuids", [])]) [("u", Job.mk "u" Status.RUNNING [] none)]).store "u" =
        some (Job.mk "u" Status.RUNNING [] none)
    ∧ ((Job.mk "u" Status.RUNNING [] none).status =
          (Job.mk "u" Status.QUEUED [] none).status
      ∨ ((Job.mk "u" Status.QUEUED [] none).status = Status.QUEUED
        ∧ (Job.mk "u" Status.RUNNING [] none).status = Status.RUNNING
        ∧ (Act.claim 5 7).isClaim = true)
      ∨ ((Job.mk "u" Status.QUEUED [] none).status = Status.RUNNING
        ∧ ((Job.mk "u" Status.RUNNING [] none).status = Status.FINISHED
          ∨ (Job.mk "u" Status.RUNNING [] none).status = Status.FAILED
          ∨ (Job.mk "u" Status.RUNNING [] none).status = Status.LOST))) :=
  ⟨by decide, by decide, by decide, by decide,
    status_transition_only_forward "q" [Act.enq "u" [] 30] (Act.claim 5 7)
      (SysState.mk (Store.mk
        [("q:u", (Payload.jobPayload (Job.mk "u" Status.QUEUED [] none), 30))]
        [("q:uuids", ["u"])]) [])
      (SysState.mk (Store.mk
        [("q:u", (Payload.jobPayload (Job.mk "u" Status.RUNNING [] none), 12))]
        [("q:uuids", [])]) [("u", Job.mk "u" Status.RUNNING [] none)])
      "u" (Job.mk "u" Status.QUEUED [] none) (Job.mk "u" Status.RUNNING [] none)
      (by decide) (by decide) (by decide) (by decide)⟩

end Rjq
